import Mathlib

/-!
# Verification of the library-manager persistence layer

Shallow embedding of the Store functions of `library_manager.py`:
the `users` and `books` tables of the SQLite database become explicit
lists, the AUTOINCREMENT id generator becomes a `nextId` counter that
only grows, and each Store function (`validate_user`, `register_user`,
`add_book`, `edit_book`, `delete_book`, `get_books`, `search_books`,
`export_books_csv`) becomes a pure function on that state.

SQLite facts used by the embedding: `SELECT * FROM books` yields rows in
rowid (= insertion) order; `UPDATE`/`DELETE ... WHERE id=?` touch exactly
the rows whose `id` equals the argument and are silent no-ops when none
match; TEXT equality in `WHERE` clauses is byte-for-byte (BINARY
collation); `INTEGER PRIMARY KEY AUTOINCREMENT` hands out strictly
increasing ids and never reuses an id after a delete.
-/

namespace LibMan

/-- A row of the `books` table: `(id, title, author, category)`. -/
structure Book where
  id : Nat
  title : String
  author : String
  category : String
deriving Repr, DecidableEq

/-- The database state: the `users` table (rows in insertion order), the
`books` table (rows in rowid = insertion order), and the AUTOINCREMENT
counter for `books.id` (the next id to hand out). -/
structure DB where
  users : List (String × String)
  books : List Book
  nextId : Nat
deriving Repr, DecidableEq

/-- `init_db` on a fresh file: both tables empty, AUTOINCREMENT starts at 1. -/
def initDB : DB := ⟨[], [], 1⟩

/-- The fixed category list `CATEGORIES` of the source. -/
def CATEGORIES : List String := ["Fiction", "Non-fiction", "Academic", "Religious", "Other"]

/-- Python `s.lower()` (ASCII case folding, as `Char.toLower` provides). -/
def pyLower (s : String) : String := String.mk (s.data.map Char.toLower)

/-- `needle` occurs as a contiguous sublist of `haystack`. -/
def isSubstrL (needle haystack : List Char) : Bool :=
  haystack.tails.any (fun t => List.isPrefixOf needle t)

/-- Python `needle in haystack` on strings: substring containment. -/
def pyIn (needle haystack : String) : Bool := isSubstrL needle.data haystack.data

/-- `validate_user`: `SELECT * FROM users WHERE username=? AND password=?`
followed by `fetchone() is not None`, i.e. true iff some row matches both
fields exactly. -/
def validate_user (db : DB) (username password : String) : Bool :=
  db.users.any (fun r => r.1 == username && r.2 == password)

/-- `register_user`: `INSERT INTO users VALUES (?, ?)` — unconditional append. -/
def register_user (db : DB) (username password : String) : DB :=
  { db with users := db.users ++ [(username, password)] }

/-- `add_book`: `INSERT INTO books (title, author, category) VALUES (?,?,?)`;
AUTOINCREMENT assigns `nextId` and bumps the counter. -/
def add_book (db : DB) (title author category : String) : DB :=
  { db with
    books := db.books ++ [⟨db.nextId, title, author, category⟩]
    nextId := db.nextId + 1 }

/-- `edit_book`: `UPDATE books SET title=?, author=?, category=? WHERE id=?`. -/
def edit_book (db : DB) (book_id : Nat) (title author category : String) : DB :=
  { db with
    books := db.books.map (fun b =>
      if b.id == book_id then ⟨b.id, title, author, category⟩ else b) }

/-- `delete_book`: `DELETE FROM books WHERE id=?`. -/
def delete_book (db : DB) (book_id : Nat) : DB :=
  { db with books := db.books.filter (fun b => b.id != book_id) }

/-- `get_books`: all rows for the sentinel `"All"`, otherwise
`SELECT * FROM books WHERE category=?` (row order preserved). -/
def get_books (db : DB) (filter_cat : String) : List Book :=
  if filter_cat == "All" then db.books
  else db.books.filter (fun b => b.category == filter_cat)

/-- `search_books`: loads all rows and keeps those where the lowered query
occurs in the lowered `book[1]` (title) or lowered `book[2]` (author). -/
def search_books (db : DB) (query : String) : List Book :=
  db.books.filter (fun b =>
    pyIn (pyLower query) (pyLower b.title) || pyIn (pyLower query) (pyLower b.author))

/-- The search the spec's words describe instead: match against the lowered
`author` or the lowered `category` (title excluded). Stated only to compare
with `search_books`, which is what the code does. -/
def search_books_spec (db : DB) (query : String) : List Book :=
  db.books.filter (fun b =>
    pyIn (pyLower query) (pyLower b.author) || pyIn (pyLower query) (pyLower b.category))

/-- The empty pattern is a substring of every character list. -/
lemma isSubstrL_nil (l : List Char) : isSubstrL [] l = true := by
  cases l <;> rfl

/-- The lowered empty query occurs in every string. -/
lemma pyIn_pyLower_empty (s : String) : pyIn (pyLower "") s = true := by
  have h : (pyLower "").data = [] := rfl
  simp [pyIn, h, isSubstrL_nil]

/-- A sample database: one user, two books, next id 3. -/
def dbW : DB := ⟨[("a", "p")], [⟨1, "T1", "A1", "Fiction"⟩, ⟨2, "T2", "A2", "Academic"⟩], 3⟩

/-- C1 fails on the code: a book whose title alone contains the query IS
returned by `search_books` (the code matches title and author), while the
author-or-category rule of the claim returns nothing. -/
theorem C1_counterexample :
    search_books ⟨[], [⟨1, "xyz", "Ann", "Fiction"⟩], 2⟩ "xyz"
        = [⟨1, "xyz", "Ann", "Fiction"⟩] ∧
      search_books_spec ⟨[], [⟨1, "xyz", "Ann", "Fiction"⟩], 2⟩ "xyz" = [] := by
  constructor <;> decide

/-- C1 amended: `search_books q` returns exactly those stored books for which
the lowered query is a substring of the lowered title OR the lowered author
(category is not matched). -/
theorem C1_search_matches_title_or_author (db : DB) (q : String) (b : Book) :
    b ∈ search_books db q ↔
      b ∈ db.books ∧
        (pyIn (pyLower q) (pyLower b.title) = true ∨
          pyIn (pyLower q) (pyLower b.author) = true) := by
  simp [search_books, List.mem_filter, Bool.or_eq_true]

/-- C2 fails on the code: with two identical stored rows `("a","p")`,
`validate_user "a" "p"` returns true, where the claim demands false. -/
theorem C2_counterexample :
    validate_user ⟨[("a", "p"), ("a", "p")], [], 1⟩ "a" "p" = true := by
  decide

/-- C2 amended: `validate_user` returns true iff AT LEAST ONE stored row
matches both fields byte-for-byte (`fetchone() is not None`). -/
theorem C2_validate_user_some_match (db : DB) (u p : String) :
    validate_user db u p = true ↔ (u, p) ∈ db.users := by
  constructor
  · intro h
    simp only [validate_user, List.any_eq_true, Bool.and_eq_true, beq_iff_eq] at h
    obtain ⟨⟨ru, rp⟩, hr, h1, h2⟩ := h
    subst h1; subst h2; exact hr
  · intro h
    simp only [validate_user, List.any_eq_true, Bool.and_eq_true, beq_iff_eq]
    exact ⟨(u, p), h, rfl, rfl⟩

/-- C4: `edit_book` keeps the table length, rewrites exactly the rows whose id
matches (replacing all three mutable fields, keeping the id), leaves every
other row in place, and is a complete no-op when no row has the id. -/
theorem C4_edit_book_frame (db : DB) (book_id : Nat) (t a c : String) :
    ((edit_book db book_id t a c).books.length = db.books.length ∧
      ∀ i : Nat, (edit_book db book_id t a c).books[i]? =
        (db.books[i]?).map (fun b =>
          if b.id = book_id then { b with title := t, author := a, category := c } else b)) ∧
    ((∀ b ∈ db.books, b.id ≠ book_id) → edit_book db book_id t a c = db) := by
  refine ⟨⟨by simp [edit_book], fun i => ?_⟩, fun h => ?_⟩
  · simp only [edit_book, List.getElem?_map]
    rcases db.books[i]? with _ | b
    · rfl
    · simp [beq_iff_eq]
  · have h2 : db.books.map (fun b =>
        if b.id == book_id then (⟨b.id, t, a, c⟩ : Book) else b) = db.books := by
      rw [show db.books = db.books.map id from (List.map_id _).symm]
      rw [List.map_map]
      apply List.map_congr_left
      intro b hb
      simp [h b hb]
    unfold edit_book
    rw [h2]

/-- C4 witness: editing an absent id in the sample database changes nothing. -/
theorem C4_edit_book_frame_witness : edit_book dbW 5 "x" "y" "z" = dbW :=
  (C4_edit_book_frame dbW 5 "x" "y" "z").2 (by decide)

/-- C5: after `delete_book id` no row has that id, the remaining rows are a
sublist (same relative order) of the old ones, every row with a different id
survives, and deleting the same id again changes nothing. -/
theorem C5_delete_book_frame (db : DB) (book_id : Nat) :
    (∀ b ∈ (delete_book db book_id).books, b.id ≠ book_id) ∧
    List.Sublist (delete_book db book_id).books db.books ∧
    (∀ b ∈ db.books, b.id ≠ book_id → b ∈ (delete_book db book_id).books) ∧
    delete_book (delete_book db book_id) book_id = delete_book db book_id := by
  refine ⟨?_, ?_, ?_, ?_⟩
  · intro b hb
    simp only [delete_book, List.mem_filter, bne_iff_ne, ne_eq] at hb
    exact hb.2
  · exact List.filter_sublist _
  · intro b hb hne
    simp [delete_book, List.mem_filter, hb, hne]
  · simp [delete_book, List.filter_filter, Bool.and_self]

/-- C5 witness: the book with id 1 survives deleting id 2 in the sample. -/
theorem C5_delete_book_frame_witness :
    (⟨1, "T1", "A1", "Fiction"⟩ : Book) ∈ (delete_book dbW 2).books :=
  (C5_delete_book_frame dbW 2).2.2.1 ⟨1, "T1", "A1", "Fiction"⟩ (by decide) (by decide)

/-- C6: for every category of the fixed list, `get_books c` is exactly the
category-`c` subsequence of `get_books "All"`, and `get_books "All"` returns
every stored book. -/
theorem C6_get_books_filter (db : DB) (c : String) (h : c ∈ CATEGORIES) :
    get_books db c = (get_books db "All").filter (fun b => b.category == c) ∧
    ∀ b : Book, b ∈ get_books db "All" ↔ b ∈ db.books := by
  have hc : (c == "All") = false := by
    simp only [CATEGORIES, List.mem_cons, List.not_mem_nil, or_false] at h
    rcases h with rfl | rfl | rfl | rfl | rfl <;> decide
  constructor
  · simp [get_books, hc]
  · intro b; simp [get_books]

/-- C6 witness: filtering the sample database by "Fiction". -/
theorem C6_get_books_filter_witness :
    get_books dbW "Fiction" = (get_books dbW "All").filter (fun b => b.category == "Fiction") :=
  (C6_get_books_filter dbW "Fiction" (by decide)).1

/-- C8: from any prior state, registering ("a","p") twice (both inserts
succeed unconditionally) and then validating ("a","p") yields true. -/
theorem C8_duplicate_register_then_validate (db : DB) :
    validate_user (register_user (register_user db "a" "p") "a" "p") "a" "p" = true := by
  simp [validate_user, register_user, List.any_append]

/-- C9: `validate_user` is case-sensitive and exact-match: with only
`("a","p")` stored, `validate_user "A" "p"` is false; and any pair that
differs from every stored row yields false. -/
theorem C9_validate_user_exact :
    validate_user ⟨[("a", "p")], [], 1⟩ "A" "p" = false ∧
    ∀ (db : DB) (u p : String), (∀ r ∈ db.users, r ≠ (u, p)) →
      validate_user db u p = false := by
  constructor
  · decide
  · intro db u p h
    simp only [validate_user, List.any_eq_false]
    intro r hr hc
    rcases r with ⟨ru, rp⟩
    simp only [Bool.and_eq_true, beq_iff_eq] at hc
    obtain ⟨rfl, rfl⟩ := hc
    exact h _ hr rfl

/-- C9 witness: an unregistered pair is rejected in the sample user table. -/
theorem C9_validate_user_exact_witness :
    validate_user ⟨[("a", "p")], [], 1⟩ "b" "q" = false :=
  C9_validate_user_exact.2 ⟨[("a", "p")], [], 1⟩ "b" "q" (by decide)

/-- C10: the empty query matches every book (the empty string is a substring
of everything), so `search_books ""` equals `get_books "All"`, order included;
the store has no special case for the empty query. -/
theorem C10_empty_query_returns_all (db : DB) :
    search_books db "" = get_books db "All" := by
  have hall : get_books db "All" = db.books := by simp [get_books]
  rw [hall]
  unfold search_books
  apply List.filter_eq_self.mpr
  intro b hb
  simp [pyIn_pyLower_empty]

/-! ## Lifetime of a database file

To speak about "every id ever assigned in this database file, including
ids of since-deleted books", we close the Store's mutating calls into an
operation type and run sequences of them from the fresh-file state. -/

/-- One mutating Store call. -/
inductive Op where
  | addB (t a c : String)
  | editB (i : Nat) (t a c : String)
  | delB (i : Nat)
  | regU (u p : String)
deriving Repr

/-- Apply one mutating call to the database state. -/
def applyOp (db : DB) : Op → DB
  | .addB t a c => add_book db t a c
  | .editB i t a c => edit_book db i t a c
  | .delB i => delete_book db i
  | .regU u p => register_user db u p

/-- Run a sequence of mutating calls. -/
def runOps (db : DB) (ops : List Op) : DB := ops.foldl applyOp db

/-- The ids AUTOINCREMENT hands out along a run starting at `db`: one per
insert, recorded whether or not the row is later deleted. -/
def assignedIdsFrom (db : DB) : List Op → List Nat
  | [] => []
  | op :: ops =>
    match op with
    | .addB _ _ _ => db.nextId :: assignedIdsFrom (applyOp db op) ops
    | _ => assignedIdsFrom (applyOp db op) ops

/-- All ids ever assigned over the database file's lifetime under `ops`. -/
def assignedIds (ops : List Op) : List Nat := assignedIdsFrom initDB ops

lemma runOps_cons (db : DB) (op : Op) (ops : List Op) :
    runOps db (op :: ops) = runOps (applyOp db op) ops := rfl

/-- No mutating call ever decreases the AUTOINCREMENT counter. -/
lemma nextId_le_applyOp (db : DB) (op : Op) : db.nextId ≤ (applyOp db op).nextId := by
  cases op with
  | addB t a c => exact Nat.le_succ _
  | editB i t a c => exact Nat.le_refl _
  | delB i => exact Nat.le_refl _
  | regU u p => exact Nat.le_refl _

/-- The AUTOINCREMENT counter is monotone along any run. -/
lemma nextId_le_runOps (ops : List Op) : ∀ db : DB, db.nextId ≤ (runOps db ops).nextId := by
  induction ops with
  | nil => intro db; exact Nat.le_refl _
  | cons op ops ih =>
    intro db
    rw [runOps_cons]
    exact Nat.le_trans (nextId_le_applyOp db op) (ih (applyOp db op))

/-- Every id assigned along a run is below the final counter value. -/
lemma assigned_lt_nextId (ops : List Op) :
    ∀ db : DB, ∀ i ∈ assignedIdsFrom db ops, i < (runOps db ops).nextId := by
  induction ops with
  | nil => intro db i hi; simp [assignedIdsFrom] at hi
  | cons op ops ih =>
    intro db i hi
    rw [runOps_cons]
    cases op with
    | addB t a c =>
      simp only [assignedIdsFrom, List.mem_cons] at hi
      rcases hi with rfl | hi
      · exact Nat.lt_of_lt_of_le (Nat.lt_succ_self db.nextId)
          (nextId_le_runOps ops (applyOp db (Op.addB t a c)))
      · exact ih _ i hi
    | editB j t a c => exact ih _ i hi
    | delB j => exact ih _ i hi
    | regU u p => exact ih _ i hi

/-- C3: from any reachable database state, `add_book` appends exactly one new
row carrying the given triple with the current AUTOINCREMENT value as id, and
that id differs from every id ever assigned before in this database file,
deleted rows included. -/
theorem C3_add_book_fresh_id (ops : List Op) (t a c : String) :
    get_books (add_book (runOps initDB ops) t a c) "All"
        = get_books (runOps initDB ops) "All"
          ++ [⟨(runOps initDB ops).nextId, t, a, c⟩] ∧
      (runOps initDB ops).nextId ∉ assignedIds ops := by
  constructor
  · simp [get_books, add_book]
  · intro h
    exact absurd (assigned_lt_nextId ops initDB _ h) (Nat.lt_irrefl _)

/-! ## CSV export (`export_books_csv`)

`pd.DataFrame(books, columns=["ID","Title","Author","Category"]).to_csv(index=False)`
writes one header row and one row per book, joined by `','` and terminated
by `'\n'`, with minimal quoting: a field is wrapped in double quotes, with
inner quotes doubled, exactly when it contains the delimiter, the quote
character, or the line terminator (the Python `csv.writer` QUOTE_MINIMAL
rule with lineterminator `'\n'`; the writer's lone-empty-field special case
cannot arise here because every record has four fields). -/

/-- A field must be quoted iff it contains `','`, `'"'` or `'\n'`. -/
def escapeNeeded (s : List Char) : Bool :=
  s.any (fun ch => ch == ',' || ch == '"' || ch == '\n')

/-- Double every `'"'` (the CSV quote-escaping rule). -/
def dupQuotes : List Char → List Char
  | [] => []
  | ch :: cs => if ch = '"' then '"' :: '"' :: dupQuotes cs else ch :: dupQuotes cs

/-- Render one field with minimal quoting. -/
def escField (s : List Char) : List Char :=
  if escapeNeeded s then '"' :: (dupQuotes s ++ ['"']) else s

/-- Render one record: comma-joined escaped fields plus the terminator. -/
def csvRow : List (List Char) → List Char
  | [] => ['\n']
  | [f] => escField f ++ ['\n']
  | f :: g :: fs => escField f ++ ',' :: csvRow (g :: fs)

/-- The header row `ID,Title,Author,Category` of the export. -/
def headerFields : List (List Char) := ["ID".data, "Title".data, "Author".data, "Category".data]

/-- The four cells of one book row, the integer id rendered in decimal. -/
def bookFields (b : Book) : List (List Char) :=
  [(toString b.id).data, b.title.data, b.author.data, b.category.data]

/-- The character content of the CSV export. -/
def csvData (books : List Book) : List Char :=
  ((headerFields :: books.map bookFields).map csvRow).flatten

/-- `export_books_csv`: the full CSV text (UTF-8 encoding abstracted to the
string of characters). -/
def export_books_csv (books : List Book) : String := String.mk (csvData books)

/-! ## A standard CSV reader

To state the round-trip property, a conventional CSV parser: quoted fields
un-double inner quotes, bare fields run to the next `','` or `'\n'`, records
are `','`-separated fields ended by `'\n'` or end of input. Recursion over
records is fuel-bounded; the input length is always enough fuel. -/

/-- Parse the body of a quoted field (opening quote already consumed);
returns the field content and the characters after the closing quote. -/
def parseQuoted : List Char → List Char → Option (List Char × List Char)
  | [], _ => none
  | ch :: rest, acc =>
    if ch = '"' then
      match rest with
      | [] => some (acc, [])
      | ch2 :: rest2 =>
        if ch2 = '"' then parseQuoted rest2 (acc ++ ['"'])
        else some (acc, ch2 :: rest2)
    else parseQuoted rest (acc ++ [ch])

/-- Parse an unquoted field: everything up to the next `','` or `'\n'`. -/
def parseBare : List Char → List Char × List Char
  | [] => ([], [])
  | ch :: rest =>
    if ch = ',' ∨ ch = '\n' then ([], ch :: rest)
    else (ch :: (parseBare rest).1, (parseBare rest).2)

/-- Parse one field, quoted or bare. -/
def parseField : List Char → Option (List Char × List Char)
  | [] => some ([], [])
  | ch :: rest => if ch = '"' then parseQuoted rest [] else some (parseBare (ch :: rest))

/-- Parse one record: fields separated by `','`, ended by `'\n'` or input end. -/
def parseRecord : Nat → List Char → Option (List (List Char) × List Char)
  | 0, _ => none
  | fuel + 1, cs =>
    match parseField cs with
    | none => none
    | some (f, rest) =>
      match rest with
      | [] => some ([f], [])
      | ch :: rest2 =>
        if ch = ',' then
          match parseRecord fuel rest2 with
          | none => none
          | some (fs, rest3) => some (f :: fs, rest3)
        else if ch = '\n' then some ([f], rest2)
        else none

/-- Parse a sequence of records until the input is exhausted. -/
def parseRows : Nat → List Char → Option (List (List (List Char)))
  | 0, cs => if cs = [] then some [] else none
  | fuel + 1, cs =>
    if cs = [] then some []
    else
      match parseRecord (cs.length + 1) cs with
      | none => none
      | some (r, rest) =>
        match parseRows fuel rest with
        | none => none
        | some rs => some (r :: rs)

/-- Parse a CSV text into its list of records of string fields. -/
def parseCSV (s : String) : Option (List (List String)) :=
  (parseRows s.data.length s.data).map (fun rows => rows.map (fun r => r.map String.mk))

/-! ### Round-trip lemmas, one layer of the format at a time -/

/-- One step of `parseQuoted`: a doubled quote contributes one quote. -/
lemma parseQuoted_step_qq (cs acc : List Char) :
    parseQuoted ('"' :: '"' :: cs) acc = parseQuoted cs (acc ++ ['"']) := rfl

/-- One step of `parseQuoted`: a lone quote closes the field. -/
lemma parseQuoted_step_close {d : Char} (hd : d ≠ '"') (cs acc : List Char) :
    parseQuoted ('"' :: d :: cs) acc = some (acc, d :: cs) := by
  rw [parseQuoted.eq_def]
  simp [hd]

/-- One step of `parseQuoted`: an ordinary character is accumulated. -/
lemma parseQuoted_step_char {ch : Char} (h : ch ≠ '"') (cs acc : List Char) :
    parseQuoted (ch :: cs) acc = parseQuoted cs (acc ++ [ch]) := by
  rw [parseQuoted.eq_def]
  simp only [if_neg h]

/-- One step of `parseBare`: a delimiter ends the field at once. -/
lemma parseBare_delim {d : Char} (hd : d = ',' ∨ d = '\n') (cs : List Char) :
    parseBare (d :: cs) = ([], d :: cs) := by
  rw [parseBare.eq_def]
  simp [hd]

/-- One step of `parseBare`: an ordinary character is kept. -/
lemma parseBare_step {ch : Char} (h : ¬(ch = ',' ∨ ch = '\n')) (cs : List Char) :
    parseBare (ch :: cs) = (ch :: (parseBare cs).1, (parseBare cs).2) := by
  rw [parseBare.eq_def]
  simp [h]

/-- `parseField` on an opening quote defers to `parseQuoted`. -/
lemma parseField_quote (cs : List Char) : parseField ('"' :: cs) = parseQuoted cs [] := by
  rw [parseField.eq_def]
  simp

/-- `parseField` on any other first character parses a bare field. -/
lemma parseField_other {ch : Char} (h : ch ≠ '"') (cs : List Char) :
    parseField (ch :: cs) = some (parseBare (ch :: cs)) := by
  rw [parseField.eq_def]
  simp [h]

/-- Reading a quoted body inverts quote-doubling, up to the closing quote,
whenever the closing quote is followed by a non-quote character. -/
lemma parseQuoted_dupQuotes (s : List Char) (d : Char) (rest : List Char)
    (hd : d ≠ '"') :
    ∀ acc : List Char,
      parseQuoted (dupQuotes s ++ '"' :: d :: rest) acc = some (acc ++ s, d :: rest) := by
  induction s with
  | nil =>
    intro acc
    simp only [dupQuotes, List.nil_append]
    rw [parseQuoted_step_close hd]
    simp
  | cons ch s ih =>
    intro acc
    by_cases h : ch = '"'
    · subst h
      have hl : dupQuotes ('"' :: s) ++ '"' :: d :: rest
          = '"' :: '"' :: (dupQuotes s ++ '"' :: d :: rest) := by
        simp [dupQuotes]
      rw [hl, parseQuoted_step_qq, ih (acc ++ ['"'])]
      simp
    · have hl : dupQuotes (ch :: s) ++ '"' :: d :: rest
          = ch :: (dupQuotes s ++ '"' :: d :: rest) := by
        simp [dupQuotes, h]
      rw [hl, parseQuoted_step_char h, ih (acc ++ [ch])]
      simp

/-- Reading a bare field stops exactly at the delimiter that follows it. -/
lemma parseBare_append (s : List Char) (d : Char) (rest : List Char)
    (hs : ∀ ch ∈ s, ¬(ch = ',' ∨ ch = '\n')) (hd : d = ',' ∨ d = '\n') :
    parseBare (s ++ d :: rest) = (s, d :: rest) := by
  induction s with
  | nil =>
    rw [List.nil_append]
    exact parseBare_delim hd rest
  | cons ch s ih =>
    have h1 := hs ch (List.mem_cons_self ch s)
    rw [List.cons_append, parseBare_step h1,
      ih (fun x hx => hs x (List.mem_cons_of_mem ch hx))]

/-- An unescaped field contains none of the special characters. -/
lemma escapeNeeded_false {s : List Char} (h : escapeNeeded s = false) :
    ∀ ch ∈ s, ¬(ch = ',' ∨ ch = '"' ∨ ch = '\n') := by
  intro ch hch hc
  simp only [escapeNeeded, List.any_eq_false] at h
  have h2 := h ch hch
  simp only [Bool.or_eq_true, beq_iff_eq] at h2
  exact h2 (by tauto)

/-- Reading one rendered field returns it verbatim, for any field content,
when the field is followed by `','` or `'\n'`. -/
lemma parseField_escField (s : List Char) (d : Char) (rest : List Char)
    (hd : d = ',' ∨ d = '\n') :
    parseField (escField s ++ d :: rest) = some (s, d :: rest) := by
  have hdq : d ≠ '"' := by rcases hd with rfl | rfl <;> decide
  by_cases h : escapeNeeded s = true
  · have hl : escField s ++ d :: rest = '"' :: (dupQuotes s ++ '"' :: d :: rest) := by
      simp [escField, h]
    rw [hl, parseField_quote, parseQuoted_dupQuotes s d rest hdq []]
    simp
  · have hfalse : escapeNeeded s = false := by
      cases hval : escapeNeeded s
      · rfl
      · exact absurd hval h
    have hs := escapeNeeded_false hfalse
    have hl : escField s ++ d :: rest = s ++ d :: rest := by
      simp [escField, hfalse]
    rw [hl]
    cases s with
    | nil =>
      rw [List.nil_append, parseField_other hdq, parseBare_delim hd]
    | cons ch s2 =>
      have hch : ch ≠ '"' := by
        have := hs ch (List.mem_cons_self ch s2)
        tauto
      have hb := parseBare_append (ch :: s2) d rest
        (fun x hx => by have := hs x hx; tauto) hd
      rw [List.cons_append, parseField_other hch, ← List.cons_append, hb]

/-- The record renderer steps one field at a time. -/
lemma csvRow_cons_cons (f g : List Char) (fs : List (List Char)) :
    csvRow (f :: g :: fs) = escField f ++ ',' :: csvRow (g :: fs) := rfl

/-- Reading one rendered record returns its fields verbatim and leaves
exactly the characters after the row terminator, for any nonempty field
list and enough fuel. -/
lemma parseRecord_csvRow (fields : List (List Char)) :
    ∀ (rest : List Char) (fuel : Nat), fields ≠ [] → fields.length ≤ fuel →
      parseRecord fuel (csvRow fields ++ rest) = some (fields, rest) := by
  induction fields with
  | nil => intro rest fuel h _; exact absurd rfl h
  | cons f fs ih =>
    intro rest fuel _ hfuel
    cases fuel with
    | zero => simp at hfuel
    | succ k =>
      cases fs with
      | nil =>
        have harr : csvRow [f] ++ rest = escField f ++ '\n' :: rest := by
          simp [csvRow]
        rw [harr]
        simp only [parseRecord]
        rw [parseField_escField f '\n' rest (Or.inr rfl)]
        simp
      | cons g gs =>
        rw [csvRow_cons_cons, List.append_assoc, List.cons_append]
        simp only [parseRecord]
        rw [parseField_escField f ',' _ (Or.inl rfl)]
        have hrec := ih rest k (by simp) (by simpa using Nat.le_of_succ_le_succ hfuel)
        simp only [hrec]
        simp

/-- A rendered record is never empty (it ends with the terminator). -/
lemma csvRow_ne_nil (fields : List (List Char)) : csvRow fields ≠ [] := by
  cases fields with
  | nil => simp [csvRow]
  | cons f fs =>
    cases fs with
    | nil => simp [csvRow]
    | cons g gs => simp [csvRow_cons_cons]

/-- A rendered record is at least as long as its field count. -/
lemma length_le_csvRow (fields : List (List Char)) :
    fields.length ≤ (csvRow fields).length := by
  induction fields with
  | nil => simp [csvRow]
  | cons f fs ih =>
    cases fs with
    | nil => simp [csvRow]
    | cons g gs =>
      rw [csvRow_cons_cons]
      simp only [List.length_append, List.length_cons] at ih ⊢
      omega

/-- A rendered table is at least as long as its record count. -/
lemma length_le_flattenRows (rows : List (List (List Char))) :
    rows.length ≤ ((rows.map csvRow).flatten).length := by
  induction rows with
  | nil => simp
  | cons r rs ih =>
    simp only [List.map_cons, List.flatten_cons, List.length_append, List.length_cons]
    have h1 : 1 ≤ (csvRow r).length := by
      cases hc : csvRow r with
      | nil => exact absurd hc (csvRow_ne_nil r)
      | cons a l => simp
    omega

/-- Reading back a rendered table returns exactly its records, for any
records of nonempty field lists and enough fuel. -/
lemma parseRows_csvRows (rows : List (List (List Char))) :
    ∀ fuel : Nat, (∀ r ∈ rows, r ≠ []) → rows.length ≤ fuel →
      parseRows fuel ((rows.map csvRow).flatten) = some rows := by
  induction rows with
  | nil =>
    intro fuel _ _
    cases fuel <;> simp [parseRows]
  | cons r rs ih =>
    intro fuel hne hfuel
    cases fuel with
    | zero => simp at hfuel
    | succ k =>
      have hjoin : ((r :: rs).map csvRow).flatten
          = csvRow r ++ ((rs.map csvRow).flatten) := by simp
      rw [hjoin]
      have hnonnil : ¬(csvRow r ++ ((rs.map csvRow).flatten) = []) := by
        simp [List.append_eq_nil, csvRow_ne_nil r]
      have hlen : r.length ≤ (csvRow r ++ (rs.map csvRow).flatten).length + 1 := by
        have h1 := length_le_csvRow r
        simp only [List.length_append]
        omega
      have hrec : parseRecord ((csvRow r ++ (rs.map csvRow).flatten).length + 1)
          (csvRow r ++ (rs.map csvRow).flatten)
            = some (r, (rs.map csvRow).flatten) :=
        parseRecord_csvRow r ((rs.map csvRow).flatten) _
          (hne r (List.mem_cons_self r rs)) hlen
      have htail := ih k (fun x hx => hne x (List.mem_cons_of_mem r hx))
        (Nat.le_of_succ_le_succ hfuel)
      rw [parseRows.eq_def]
      simp only [if_neg hnonnil, hrec, htail]

/-- Rebuilding a string from the characters of a string gives it back. -/
lemma mk_data (s : String) : String.mk s.data = s := rfl

/-- C7: parsing the CSV text produced by `export_books_csv` yields the four
header cells followed by one record per book carrying exactly
`(id, title, author, category)` (the id in decimal), in input order —
whatever delimiters, quotes or newlines the fields contain. -/
theorem C7_csv_roundtrip (books : List Book) :
    parseCSV (export_books_csv books)
      = some (["ID", "Title", "Author", "Category"]
          :: books.map (fun b => [toString b.id, b.title, b.author, b.category])) := by
  have hne : ∀ r ∈ headerFields :: books.map bookFields, r ≠ [] := by
    intro r hr
    rcases List.mem_cons.mp hr with rfl | hr2
    · simp [headerFields]
    · obtain ⟨b, _, rfl⟩ := List.mem_map.mp hr2
      simp [bookFields]
  have hlen : (headerFields :: books.map bookFields).length ≤ (csvData books).length :=
    length_le_flattenRows _
  have hrows : parseRows ((csvData books).length) (csvData books)
      = some (headerFields :: books.map bookFields) :=
    parseRows_csvRows _ _ hne hlen
  have hdata : (export_books_csv books).data = csvData books := rfl
  unfold parseCSV
  rw [hdata, hrows, Option.map_some']
  congr 1
  simp only [List.map_cons, List.map_map]
  congr 1

end LibMan
